import Mathlib

/-!
Verification of `src/aipipeline/knowledge_graph/kg_utilities.py`
(`DataDisambiguation` and its helper functions) against its specification.

The Python module is embedded shallowly:

* machine data (`dict` records of the input fragment) become Lean structures;
  a node's `properties` mapping only ever appears through
  `json.dumps(node["properties"])`, so the model carries the serialized JSON
  string directly in the `properties` field;
* the external LLM (`self.llm.chat`) becomes a function from the message list
  to the response text, and `run` additionally returns the chronological list
  of chat requests it issued so that request counts and contents are provable;
* the two conversion collaborators imported from
  `aipipeline.knowledge_graph.unstructured_data_utils`
  (`nodesTextToListOfKnowledgeGraphNodes` and
  `relationshipTextToListOfKnowledgeGraphRelationship`) are not part of the
  given sources, so `run` is parameterized over them;
* `re.findall(internalRegex, text)` with `internalRegex = "\[(.*?)\]"` is
  modelled by `findallBrackets`, implementing the regex-engine semantics of
  that pattern: scan left to right, a match starts at a literal bracket and
  captures the shortest newline-free run up to a closing bracket.
-/

/-- Embeds a node record of the input fragment: the Python `dict` with keys
`"name"`, `"label"` and `"properties"`.  The `properties` field holds the
`json.dumps` serialization of the properties mapping, which is the only form
in which the source ever consumes it. -/
structure Node where
  name : String
  label : String
  properties : String
  deriving Repr, DecidableEq

/-- Embeds a relationship record of the input fragment: the Python `dict` with
keys `"start"`, `"type"`, `"end"` and `"properties"` (the latter again held as
its `json.dumps` serialization). -/
structure Relationship where
  start : String
  type : String
  «end» : String
  properties : String
  deriving Repr, DecidableEq

/-- Embeds `llama_index` `MessageRole`; only the two roles used by the source
appear. -/
inductive MessageRole where
  | system
  | user
  deriving Repr, DecidableEq

/-- Embeds `llama_index` `ChatMessage`: a role together with the text content. -/
structure ChatMessage where
  role : MessageRole
  content : String
  deriving Repr, DecidableEq

/-- Embeds the graph fragment passed to and returned by
`DataDisambiguation.run`: a mapping with keys `"nodes"` and
`"relationships"`. -/
structure Fragment where
  nodes : List Node
  relationships : List Relationship
  deriving Repr, DecidableEq

/-- Transcription of `generate_system_message_for_nodes` from
`kg_utilities.py` (lines 20-30), byte for byte including trailing spaces;
literal braces of the example line are written with escapes. -/
def generate_system_message_for_nodes : String :=
  "Your task is to identify if there are duplicated nodes and if so merge them into one nod. Only merge the nodes that refer to the same entity.\n" ++
  "You will be given different datasets of nodes and some of these nodes may be duplicated or refer to the same entity. \n" ++
  "The datasets contains nodes in the form [ENTITY_ID, TYPE, PROPERTIES]. When you have completed your task please give me the \n" ++
  "resulting nodes in the same format. Only return the nodes and relationships no other text. If there is no duplicated nodes return the original nodes.\n" ++
  "\n" ++
  "When defining the propreties for the nodes please use wellknwon types from schema.org that match the entity TYPE.\n" ++
  "\n" ++
  "Here is an example of the input you will be given:\n" ++
  "[\"alice\", \"Person\", \x7b\"age\": 25, \"occupation\": \"lawyer\", \"name\":\"Alice\"\x7d], [\"bob\", \"Person\", \x7b\"occupation\": \"journalist\", \"name\": \"Bob\"\x7d], [\"alice.com\", \"Webpage\", \x7b\"url\": \"www.alice.com\"\x7d], [\"bob.com\", \"Webpage\", \x7b\"url\": \"www.bob.com\"\x7d]\n"

/-- Transcription of `generate_system_message_for_relationships` from
`kg_utilities.py` (lines 33-49), byte for byte (the Python triple-quoted
string opens with a newline). -/
def generate_system_message_for_relationships : String :=
  "\n" ++
  "Your task is to identify if a set of relationships make sense.\n" ++
  "If they do not make sense please remove them from the dataset.\n" ++
  "Some relationships may be duplicated or refer to the same entity. \n" ++
  "Please merge relationships that refer to the same entity.\n" ++
  "The datasets contains relationships in the form [ENTITY_ID_1, RELATIONSHIP, ENTITY_ID_2, PROPERTIES].\n" ++
  "You will also be given a set of ENTITY_IDs that are valid.\n" ++
  "Some relationships may use ENTITY_IDs that are not in the valid set but refer to a entity in the valid set.\n" ++
  "If a relationships refer to a ENTITY_ID in the valid set please change the ID so it matches the valid ID.\n" ++
  "When you have completed your task please give me the valid relationships in the same format. Only return the relationships no other text.\n" ++
  "\n" ++
  "When defining the propreties for the relationships please use wellknwon types from schema.org that mathed the RELATIONSHIP type.\n" ++
  "\n" ++
  "Here is an example of the input you will be given:\n" ++
  "[\"alice\", \"roommate\", \"bob\", \x7b\"start\": 2021\x7d], [\"alice\", \"owns\", \"alice.com\", \x7b\x7d], [\"bob\", \"owns\", \"bob.com\", \x7b\x7d]\n"

/-- Transcription of `generate_prompt` (lines 52-55): the f-string
`" Here is the data:\n\x7bdata\x7d\n"`. -/
def generate_prompt (data : String) : String :=
  " Here is the data:\n" ++ data ++ "\n"

/-- Transcription of the module-level constant `internalRegex` (line 57). -/
def internalRegex : String := "\\[(.*?)\\]"

/-- Helper for the regex model: given the characters following an opening
bracket, return the captured content up to the nearest closing bracket
together with the remaining characters, or `none` when a newline or the end
of input intervenes (Python `.` does not match a newline, so `\[(.*?)\]`
cannot match across one). -/
def takeToClose : List Char → Option (List Char × List Char)
  | [] => none
  | c :: cs =>
    if c = ']' then some ([], cs)
    else if c = '\n' then none
    else
      match takeToClose cs with
      | some (content, rest) => some (c :: content, rest)
      | none => none

theorem takeToClose_length : ∀ {cs content rest : List Char},
    takeToClose cs = some (content, rest) → rest.length < cs.length := by
  intro cs
  induction cs with
  | nil => intro content rest h; simp [takeToClose] at h
  | cons c cs ih =>
    intro content rest h
    simp only [takeToClose] at h
    split at h
    · cases h
      simp
    · split at h
      · cases h
      · cases heq : takeToClose cs with
        | none => rw [heq] at h; cases h
        | some p =>
          obtain ⟨content', rest'⟩ := p
          rw [heq] at h
          cases h
          have := ih heq
          simp only [List.length_cons]
          omega

/-- Fuelled scanner behind `findallBrackets`; the fuel only serves structural
recursion and never runs out when initialized with the text length. -/
def findallBracketsAux : Nat → List Char → List String
  | 0, _ => []
  | _ + 1, [] => []
  | fuel + 1, c :: cs =>
    if c = '[' then
      match takeToClose cs with
      | some (content, rest) => String.mk content :: findallBracketsAux fuel rest
      | none => findallBracketsAux fuel cs
    else findallBracketsAux fuel cs

/-- Model of `re.findall("\[(.*?)\]", s)` on the character list of `s`:
the regex engine scans left to right, a match starts at an opening bracket
and non-greedily captures up to the nearest closing bracket with no newline
in between; scanning resumes after the match (or one character further when
no match starts here). -/
def findallBrackets (s : List Char) : List String :=
  findallBracketsAux s.length s

theorem findallBracketsAux_congr : ∀ (fuel fuel' : Nat) (s : List Char),
    s.length ≤ fuel → s.length ≤ fuel' →
    findallBracketsAux fuel s = findallBracketsAux fuel' s := by
  intro fuel
  induction fuel with
  | zero =>
    intro fuel' s hs _
    have : s = [] := List.length_eq_zero.mp (Nat.le_zero.mp hs)
    subst this
    cases fuel' <;> rfl
  | succ m ih =>
    intro fuel' s hs hs'
    cases s with
    | nil => cases fuel' <;> rfl
    | cons c cs =>
      cases fuel' with
      | zero => exact absurd hs' (by simp)
      | succ k =>
        simp only [List.length_cons, Nat.succ_le_succ_iff] at hs hs'
        simp only [findallBracketsAux]
        by_cases hc : c = '['
        · rw [if_pos hc, if_pos hc]
          cases heq : takeToClose cs with
          | none => exact ih k cs hs hs'
          | some p =>
            obtain ⟨content, rest⟩ := p
            have hrest := takeToClose_length heq
            dsimp only
            rw [ih k rest (Nat.le_of_lt (Nat.lt_of_lt_of_le hrest hs))
              (Nat.le_of_lt (Nat.lt_of_lt_of_le hrest hs'))]
        · rw [if_neg hc, if_neg hc]
          exact ih k cs hs hs'

theorem findallBrackets_nil : findallBrackets [] = [] := rfl

theorem findallBrackets_cons (c : Char) (cs : List Char) :
    findallBrackets (c :: cs) =
      if c = '[' then
        match takeToClose cs with
        | some (content, rest) => String.mk content :: findallBrackets rest
        | none => findallBrackets cs
      else findallBrackets cs := by
  unfold findallBrackets
  simp only [List.length_cons, findallBracketsAux]
  by_cases hc : c = '['
  · rw [if_pos hc, if_pos hc]
    cases heq : takeToClose cs with
    | none => rfl
    | some p =>
      obtain ⟨content, rest⟩ := p
      have hrest := takeToClose_length heq
      dsimp only
      rw [findallBracketsAux_congr cs.length rest.length rest
        (Nat.le_of_lt hrest) (Nat.le_refl _)]
  · rw [if_neg hc, if_neg hc]

/-- Fuelled worker behind `groupByKey`; the fuel only serves structural
recursion and never runs out when initialized with the list length. -/
def groupByKeyAux (f : α → String) : Nat → List α → List (List α)
  | 0, _ => []
  | _ + 1, [] => []
  | fuel + 1, a :: as =>
    (a :: as.takeWhile (fun b => f b == f a)) ::
      groupByKeyAux f fuel (as.dropWhile (fun b => f b == f a))

/-- Model of `itertools.groupby` as used on line 80: partition a list into
maximal contiguous runs on which the key `f` is constant. -/
def groupByKey (f : α → String) (l : List α) : List (List α) :=
  groupByKeyAux f l.length l

theorem groupByKeyAux_congr (f : α → String) : ∀ (fuel fuel' : Nat) (l : List α),
    l.length ≤ fuel → l.length ≤ fuel' →
    groupByKeyAux f fuel l = groupByKeyAux f fuel' l := by
  intro fuel
  induction fuel with
  | zero =>
    intro fuel' l hl _
    have : l = [] := List.length_eq_zero.mp (Nat.le_zero.mp hl)
    subst this
    cases fuel' <;> rfl
  | succ m ih =>
    intro fuel' l hl hl'
    cases l with
    | nil => cases fuel' <;> rfl
    | cons a as =>
      cases fuel' with
      | zero => exact absurd hl' (by simp)
      | succ k =>
        simp only [List.length_cons, Nat.succ_le_succ_iff] at hl hl'
        simp only [groupByKeyAux]
        have hdw := (List.dropWhile_sublist (fun b => f b == f a) (l := as)).length_le
        rw [ih k (as.dropWhile (fun b => f b == f a)) (Nat.le_trans hdw hl)
          (Nat.le_trans hdw hl')]

theorem groupByKey_nil (f : α → String) : groupByKey f [] = [] := rfl

theorem groupByKey_cons (f : α → String) (a : α) (as : List α) :
    groupByKey f (a :: as) =
      (a :: as.takeWhile (fun b => f b == f a)) ::
        groupByKey f (as.dropWhile (fun b => f b == f a)) := by
  unfold groupByKey
  simp only [List.length_cons, groupByKeyAux]
  have hdw := (List.dropWhile_sublist (fun b => f b == f a) (l := as)).length_le
  rw [groupByKeyAux_congr f as.length (as.dropWhile (fun b => f b == f a)).length
    (as.dropWhile (fun b => f b == f a)) hdw (Nat.le_refl _)]

/-- Model of `sorted(data["nodes"], key=lambda x: x["label"])` (line 75):
Python `sorted` is a stable sort by the key, embedded as the stable
`List.mergeSort` under comparison of labels. -/
def sortNodes (l : List Node) : List Node :=
  l.mergeSort (fun a b => decide (a.label ≤ b.label))

/-- Serialization of one node inside the group loop (lines 88-97). -/
def nodeLine (node : Node) : String :=
  "[\"" ++ node.name ++ "\", \"" ++ node.label ++ "\", " ++ node.properties ++ "]\n"

/-- Serialization of one relationship in the validation prompt (lines 111-122). -/
def relLine (relation : Relationship) : String :=
  "[\"" ++ relation.start ++ "\", \"" ++ relation.type ++ "\", \"" ++
    relation.«end» ++ "\", " ++ relation.properties ++ "]\n"

/-- Tag recording which code site issued a chat request: the node-merging
call inside the group loop (line 104) or the single relationship-validation
call (line 132). -/
inductive ReqKind where
  | merge
  | validation
  deriving Repr, DecidableEq

/-- One chat request issued by `run`: the issuing site together with the
message list passed to `self.llm.chat`. -/
abbrev Request := ReqKind × List ChatMessage

/-- Embeds the external text-generation capability `self.llm.chat`: a function
from the message list to the response text
(`(self.llm.chat(message)).message.content`). -/
abbrev LLMFun := List ChatMessage → String

/-- Embeds signatures of the conversion collaborators from
`unstructured_data_utils.py`, which are not among the given sources: a
function from the list of captured bracket contents to a list of records. -/
abbrev NodesConv := List String → List Node

/-- Embeds the relationship conversion collaborator's signature. -/
abbrev RelsConv := List String → List Relationship

namespace DataDisambiguation

/-- Body of the `for group in node_groups` loop of `run` (lines 81-108), as a
fold step over the accumulated `new_nodes` and the chat requests issued so
far.  A singleton group is extended verbatim; any other group is serialized
into `disString`, sent to the LLM with
`generate_system_message_for_relationships` as the system message, and the
bracket captures of the response are passed to the node conversion. -/
def mergeStep (llm : LLMFun) (nodesConv : NodesConv)
    (acc : List Node × List Request) (g : List Node) : List Node × List Request :=
  if g.length == 1 then (acc.1 ++ g, acc.2)
  else
    let disString := g.foldl (fun s node => s ++ nodeLine node) ""
    let message := [ChatMessage.mk MessageRole.system generate_system_message_for_relationships,
                    ChatMessage.mk MessageRole.user disString]
    let rawNodes := llm message
    let n := findallBrackets rawNodes.data
    (acc.1 ++ nodesConv n, acc.2 ++ [(ReqKind.merge, message)])

/-- Embeds `DataDisambiguation.run` (lines 74-136).  Besides the returned
fragment, the model also returns the chronological list of chat requests,
making the component's only side effect explicit. -/
def run (llm : LLMFun) (nodesConv : NodesConv) (relsConv : RelsConv)
    (data : Fragment) : Fragment × List Request :=
  let nodes := sortNodes data.nodes
  let relationships := data.relationships
  let node_groups := groupByKey Node.label nodes
  let folded := node_groups.foldl (mergeStep llm nodesConv) ([], [])
  let new_nodes := folded.1
  let relationship_data :=
    relationships.foldl (fun s relation => s ++ relLine relation) "Relationships:\n"
  let node_labels := new_nodes.map Node.name
  let relationship_data2 := relationship_data ++ "Valid Nodes:\n" ++
    String.intercalate "\n" node_labels
  let message := [ChatMessage.mk MessageRole.system generate_system_message_for_relationships,
                  ChatMessage.mk MessageRole.user (generate_prompt relationship_data2)]
  let rawRelationships := llm message
  let rels := findallBrackets rawRelationships.data
  let new_relationships := relsConv rels
  (Fragment.mk new_nodes new_relationships, folded.2 ++ [(ReqKind.validation, message)])

end DataDisambiguation

/-- The serialized text of a node group (`disString` accumulated on
lines 88-97). -/
def disString (g : List Node) : String :=
  g.foldl (fun s node => s ++ nodeLine node) ""

/-- The message list of a node-merging chat request (lines 99-102). -/
def mergeMessage (g : List Node) : List ChatMessage :=
  [ChatMessage.mk MessageRole.system generate_system_message_for_relationships,
   ChatMessage.mk MessageRole.user (disString g)]

/-- The nodes one group loop iteration appends to `new_nodes`. -/
def groupNodesOut (llm : LLMFun) (nodesConv : NodesConv) (g : List Node) : List Node :=
  if g.length == 1 then g
  else nodesConv (findallBrackets (llm (mergeMessage g)).data)

/-- The chat requests one group loop iteration issues. -/
def groupTraceOut (g : List Node) : List Request :=
  if g.length == 1 then [] else [(ReqKind.merge, mergeMessage g)]

/-- Concatenation of a list of strings; spells out the string append fold used
to reason about the accumulation loops. -/
def strConcat : List String → String
  | [] => ""
  | s :: rest => s ++ strConcat rest

/-- The `relationship_data` accumulator after the loop of lines 110-122. -/
def relationshipData (data : Fragment) : String :=
  data.relationships.foldl (fun s relation => s ++ relLine relation) "Relationships:\n"

/-- Formalization of the claimed composition of the relationship-validation
user message: the literal header `"Relationships:"`, one bracketed line per
input relationship, the literal header `"Valid Nodes:"`, then the merged node
names one per line.  This definition follows the claim's words, to be
compared with what the source actually sends. -/
def claimedValidationUserContent (data : Fragment) (mergedNames : List String) : String :=
  "Relationships:\n" ++ strConcat (data.relationships.map relLine) ++
    "Valid Nodes:\n" ++ String.intercalate "\n" mergedNames

/-- The property that a text contains a substring matched by the pattern
`\[(.*?)\]`: an opening bracket, then a newline-free run, then a closing
bracket (Python `.` does not match a newline). -/
def ContainsBracketMatch (s : List Char) : Prop :=
  ∃ pre mid post : List Char, s = pre ++ '[' :: (mid ++ ']' :: post) ∧ '\n' ∉ mid

/-- The node groups the group loop iterates over (lines 75 and 80). -/
def nodeGroups (data : Fragment) : List (List Node) :=
  groupByKey Node.label (sortNodes data.nodes)

theorem groupByKey_flatten (f : α → String) : ∀ l : List α, (groupByKey f l).flatten = l
  | [] => by simp [groupByKey_nil]
  | a :: as => by
    rw [groupByKey_cons, List.flatten_cons,
      groupByKey_flatten f (as.dropWhile fun b => f b == f a)]
    simp [List.takeWhile_append_dropWhile]
termination_by l => l.length
decreasing_by
  simp only [List.length_cons]
  exact Nat.lt_succ_of_le (List.dropWhile_sublist _).length_le

theorem groupByKey_mem_structure (f : α → String) : ∀ l : List α, ∀ g ∈ groupByKey f l,
    ∃ a tail, g = a :: tail ∧ ∀ b ∈ g, f b = f a
  | [] => by simp [groupByKey_nil]
  | a :: as => by
    intro g hg
    rw [groupByKey_cons] at hg
    rcases List.mem_cons.mp hg with hg | hg
    · refine ⟨a, as.takeWhile (fun b => f b == f a), hg, ?_⟩
      intro b hb
      rw [hg] at hb
      rcases List.mem_cons.mp hb with rfl | hb
      · rfl
      · simpa using List.mem_takeWhile_imp hb
    · exact groupByKey_mem_structure f (as.dropWhile fun b => f b == f a) g hg
termination_by l => l.length
decreasing_by
  simp only [List.length_cons]
  exact Nat.lt_succ_of_le (List.dropWhile_sublist _).length_le

theorem groupByKey_ne_nil (f : α → String) (l : List α) :
    ∀ g ∈ groupByKey f l, g ≠ [] := by
  intro g hg
  obtain ⟨a, tail, rfl, -⟩ := groupByKey_mem_structure f l g hg
  simp

theorem dropWhile_head_false (p : α → Bool) : ∀ (l : List α) (b : α) (l' : List α),
    l.dropWhile p = b :: l' → p b = false
  | [], b, l', h => by simp [List.dropWhile] at h
  | a :: as, b, l', h => by
    by_cases hp : p a
    · rw [List.dropWhile_cons_of_pos hp] at h
      exact dropWhile_head_false p as b l' h
    · rw [List.dropWhile_cons_of_neg hp] at h
      cases h
      exact Bool.eq_false_iff.mpr hp

theorem sorted_dropWhile_key_gt (f : α → String) (a : α) (as : List α)
    (hs : (a :: as).Pairwise (fun x y => f x ≤ f y)) :
    ∀ b ∈ as.dropWhile (fun b => f b == f a), f a < f b := by
  intro b hb
  rw [List.pairwise_cons] at hs
  obtain ⟨ha, has⟩ := hs
  have hdw : List.Sublist (as.dropWhile (fun b => f b == f a)) as := List.dropWhile_sublist _
  cases hcons : as.dropWhile (fun b => f b == f a) with
  | nil => rw [hcons] at hb; cases hb
  | cons d ds =>
    rw [hcons] at hb hdw
    have hdmem : d ∈ as := hdw.subset (List.mem_cons_self _ _)
    have hdne : f d ≠ f a := by
      have := dropWhile_head_false (fun b => f b == f a) as d ds hcons
      simpa using this
    have hdgt : f a < f d := lt_of_le_of_ne (ha d hdmem) (Ne.symm hdne)
    rcases List.mem_cons.mp hb with rfl | hb
    · exact hdgt
    · have hpw : (d :: ds).Pairwise (fun x y => f x ≤ f y) := has.sublist hdw
      rw [List.pairwise_cons] at hpw
      exact lt_of_lt_of_le hdgt (hpw.1 b hb)

theorem filter_eq_takeWhile_of_sorted (f : α → String) (s : String) :
    ∀ l : List α, l.Pairwise (fun x y => f x ≤ f y) → (∀ b ∈ l, s ≤ f b) →
    l.filter (fun b => f b == s) = l.takeWhile (fun b => f b == s) := by
  intro l
  induction l with
  | nil => intro _ _; rfl
  | cons b bs ih =>
    intro hs hge
    rw [List.pairwise_cons] at hs
    by_cases hb : f b = s
    · rw [List.filter_cons_of_pos (by simpa using hb),
        List.takeWhile_cons_of_pos (by simpa using hb)]
      rw [ih hs.2 (fun c hc => hb ▸ hs.1 c hc)]
    · rw [List.filter_cons_of_neg (by simpa using hb),
        List.takeWhile_cons_of_neg (by simpa using hb)]
      apply List.filter_eq_nil_iff.mpr
      intro c hc
      have h1 : s < f b := lt_of_le_of_ne (hge b (List.mem_cons_self _ _)) (Ne.symm hb)
      have h2 : f b ≤ f c := hs.1 c hc
      simp only [beq_iff_eq]
      intro h
      rw [h] at h2
      exact absurd (lt_of_lt_of_le h1 h2) (lt_irrefl s)

theorem groupByKey_sorted_eq_filter (f : α → String) :
    ∀ l : List α, l.Pairwise (fun x y => f x ≤ f y) →
    ∀ g ∈ groupByKey f l, ∃ a, a ∈ l ∧ g = l.filter (fun b => f b == f a)
  | [] => by simp [groupByKey_nil]
  | a :: as => by
    intro hs g hg
    have hs' := hs
    rw [List.pairwise_cons] at hs'
    rw [groupByKey_cons] at hg
    rcases List.mem_cons.mp hg with hg | hg
    · refine ⟨a, List.mem_cons_self _ _, ?_⟩
      rw [hg, List.filter_cons_of_pos (by simp)]
      congr 1
      exact (filter_eq_takeWhile_of_sorted f (f a) as hs'.2 hs'.1).symm
    · obtain ⟨a', ha', hgeq⟩ := groupByKey_sorted_eq_filter f
        (as.dropWhile fun b => f b == f a) (hs'.2.sublist (List.dropWhile_sublist _)) g hg
      have ha'gt : f a < f a' := sorted_dropWhile_key_gt f a as hs a' ha'
      have ha'mem : a' ∈ a :: as :=
        List.mem_cons_of_mem a ((List.dropWhile_sublist _).subset ha')
      refine ⟨a', ha'mem, ?_⟩
      rw [hgeq, List.filter_cons_of_neg (by simp; exact fun h => absurd (h ▸ ha'gt) (lt_irrefl _))]
      conv_rhs => rw [← List.takeWhile_append_dropWhile (fun b => f b == f a) as]
      rw [List.filter_append]
      have htw : (as.takeWhile fun b => f b == f a).filter (fun b => f b == f a') = [] := by
        apply List.filter_eq_nil_iff.mpr
        intro c hc
        have : f c = f a := by simpa using List.mem_takeWhile_imp hc
        simp only [beq_iff_eq, this]
        exact fun h => absurd (h ▸ ha'gt) (lt_irrefl _)
      rw [htw, List.nil_append]
termination_by l => l.length
decreasing_by
  simp only [List.length_cons]
  exact Nat.lt_succ_of_le (List.dropWhile_sublist _).length_le

theorem groupByKey_sorted_pairwise_ne (f : α → String) :
    ∀ l : List α, l.Pairwise (fun x y => f x ≤ f y) →
    (groupByKey f l).Pairwise (fun g h => ∀ x ∈ g, ∀ y ∈ h, f x ≠ f y)
  | [] => by simp [groupByKey_nil]
  | a :: as => by
    intro hs
    have hs' := hs
    rw [List.pairwise_cons] at hs'
    rw [groupByKey_cons, List.pairwise_cons]
    constructor
    · intro h hh x hx y hy
      have hxa : f x = f a := by
        rcases List.mem_cons.mp hx with rfl | hx
        · rfl
        · simpa using List.mem_takeWhile_imp hx
      have hymem : y ∈ as.dropWhile fun b => f b == f a := by
        rw [← groupByKey_flatten f (as.dropWhile fun b => f b == f a)]
        exact List.mem_flatten.mpr ⟨h, hh, hy⟩
      have := sorted_dropWhile_key_gt f a as hs y hymem
      rw [hxa]
      exact ne_of_lt this
    · exact groupByKey_sorted_pairwise_ne f (as.dropWhile fun b => f b == f a)
        (hs'.2.sublist (List.dropWhile_sublist _))
termination_by l => l.length
decreasing_by
  simp only [List.length_cons]
  exact Nat.lt_succ_of_le (List.dropWhile_sublist _).length_le

theorem groupByKey_of_nodup_keys (f : α → String) :
    ∀ l : List α, (l.map f).Nodup → groupByKey f l = l.map (fun a => [a])
  | [] => by simp [groupByKey_nil]
  | a :: as => by
    intro hnd
    rw [List.map_cons, List.nodup_cons] at hnd
    have hne : ∀ b ∈ as, (f b == f a) = false := by
      intro b hb
      simp only [beq_eq_false_iff_ne, ne_eq]
      exact fun h => hnd.1 (h ▸ List.mem_map_of_mem f hb)
    have htw : as.takeWhile (fun b => f b == f a) = [] := by
      cases as with
      | nil => rfl
      | cons b bs =>
        rw [List.takeWhile_cons_of_neg]
        simp [hne b (List.mem_cons_self _ _)]
    have hdw : as.dropWhile (fun b => f b == f a) = as := by
      cases as with
      | nil => rfl
      | cons b bs =>
        rw [List.dropWhile_cons_of_neg]
        simp [hne b (List.mem_cons_self _ _)]
    rw [groupByKey_cons, htw, hdw, groupByKey_of_nodup_keys f as hnd.2, List.map_cons]
termination_by l => l.length
decreasing_by simp

theorem flatten_map_singleton : ∀ l : List α, (l.map (fun a => [a])).flatten = l
  | [] => rfl
  | a :: as => by rw [List.map_cons, List.flatten_cons, flatten_map_singleton as]; rfl

theorem takeToClose_eq_some : ∀ {cs content rest : List Char},
    takeToClose cs = some (content, rest) →
    cs = content ++ ']' :: rest ∧ '\n' ∉ content := by
  intro cs
  induction cs with
  | nil => intro content rest h; simp [takeToClose] at h
  | cons c cs ih =>
    intro content rest h
    simp only [takeToClose] at h
    split at h
    · rename_i hc
      cases h
      subst hc
      simp
    · split at h
      · cases h
      · rename_i hc hn
        cases heq : takeToClose cs with
        | none => rw [heq] at h; cases h
        | some p =>
          obtain ⟨content', rest'⟩ := p
          rw [heq] at h
          cases h
          obtain ⟨hcs, hnl⟩ := ih heq
          refine ⟨by rw [hcs]; simp, ?_⟩
          simp only [List.mem_cons, not_or]
          exact ⟨fun hcontra => hn hcontra.symm, hnl⟩

theorem takeToClose_isSome : ∀ (mid post : List Char), '\n' ∉ mid →
    (takeToClose (mid ++ ']' :: post)).isSome := by
  intro mid
  induction mid with
  | nil => intro post _; simp [takeToClose]
  | cons c mid ih =>
    intro post hn
    simp only [List.mem_cons, not_or] at hn
    simp only [List.cons_append, takeToClose]
    split
    · simp
    · split
      · rename_i hc
        exact absurd hc.symm hn.1
      · cases heq : takeToClose (mid ++ ']' :: post) with
        | none => have := ih post hn.2; rw [heq] at this; cases this
        | some p => simp

theorem findallBrackets_ne_nil_of_contains (s : List Char)
    (h : ContainsBracketMatch s) : findallBrackets s ≠ [] := by
  obtain ⟨pre, mid, post, rfl, hmid⟩ := h
  induction pre with
  | nil =>
    rw [List.nil_append, findallBrackets_cons]
    rw [if_pos rfl]
    have := takeToClose_isSome mid post hmid
    cases heq : takeToClose (mid ++ ']' :: post) with
    | none => rw [heq] at this; cases this
    | some p => obtain ⟨content, rest⟩ := p; simp [heq]
  | cons c pre ih =>
    rw [List.cons_append, findallBrackets_cons]
    by_cases hc : c = '['
    · rw [if_pos hc]
      cases heq : takeToClose (pre ++ '[' :: (mid ++ ']' :: post)) with
      | none => exact ih
      | some p => obtain ⟨content, rest⟩ := p; simp
    · rw [if_neg hc]
      exact ih

theorem contains_of_findallBrackets_ne_nil : ∀ s : List Char,
    findallBrackets s ≠ [] → ContainsBracketMatch s := by
  intro s
  induction s with
  | nil => intro h; rw [findallBrackets_nil] at h; exact absurd rfl h
  | cons c cs ih =>
    intro h
    rw [findallBrackets_cons] at h
    by_cases hc : c = '['
    · rw [if_pos hc] at h
      cases heq : takeToClose cs with
      | none =>
        rw [heq] at h
        obtain ⟨pre, mid, post, hcs, hmid⟩ := ih h
        exact ⟨c :: pre, mid, post, by rw [hcs, List.cons_append], hmid⟩
      | some p =>
        obtain ⟨content, rest⟩ := p
        obtain ⟨hcs, hnl⟩ := takeToClose_eq_some heq
        exact ⟨[], content, rest, by rw [hc, hcs, List.nil_append], hnl⟩
    · rw [if_neg hc] at h
      obtain ⟨pre, mid, post, hcs, hmid⟩ := ih h
      exact ⟨c :: pre, mid, post, by rw [hcs, List.cons_append], hmid⟩

/-- Characterization of the zero-match case of the bracket scan: the scan
returns the empty list exactly when the text has no substring matching
`\[(.*?)\]`. -/
theorem findallBrackets_eq_nil_iff (s : List Char) :
    findallBrackets s = [] ↔ ¬ ContainsBracketMatch s := by
  constructor
  · intro h hcontra
    exact findallBrackets_ne_nil_of_contains s hcontra h
  · intro h
    by_contra hne
    exact h (contains_of_findallBrackets_ne_nil s hne)

theorem nodeLE_trans : ∀ (a b c : Node), decide (a.label ≤ b.label) →
    decide (b.label ≤ c.label) → decide (a.label ≤ c.label) := by
  intro a b c hab hbc
  simp only [decide_eq_true_eq] at *
  exact le_trans hab hbc

theorem nodeLE_total : ∀ (a b : Node),
    decide (a.label ≤ b.label) || decide (b.label ≤ a.label) := by
  intro a b
  simpa using le_total a.label b.label

theorem sortNodes_perm (l : List Node) : (sortNodes l).Perm l :=
  List.mergeSort_perm l _

theorem sortNodes_pairwise (l : List Node) :
    (sortNodes l).Pairwise (fun a b : Node => a.label ≤ b.label) := by
  have h := List.sorted_mergeSort nodeLE_trans nodeLE_total l
  exact h.imp (by intro a b hab; simpa using hab)

theorem sortNodes_filter_label (l : List Node) (s : String) :
    (sortNodes l).filter (fun n => n.label == s) = l.filter (fun n => n.label == s) := by
  have hpair : (l.filter (fun n => n.label == s)).Pairwise
      (fun a b : Node => decide (a.label ≤ b.label)) := by
    apply List.pairwise_of_forall_mem_list
    intro a ha b hb
    have ha' := (List.mem_filter.mp ha).2
    have hb' := (List.mem_filter.mp hb).2
    simp only [beq_iff_eq] at ha' hb'
    simp [ha', hb']
  have hsub : List.Sublist (l.filter (fun n => n.label == s)) (sortNodes l) :=
    List.sublist_mergeSort nodeLE_trans nodeLE_total hpair (List.filter_sublist l)
  have hself : (l.filter (fun n => n.label == s)).filter (fun n => n.label == s) =
      l.filter (fun n => n.label == s) :=
    List.filter_eq_self.mpr (fun a ha => (List.mem_filter.mp ha).2)
  have hsub2 : List.Sublist (l.filter (fun n => n.label == s))
      ((sortNodes l).filter (fun n => n.label == s)) := by
    have := hsub.filter (fun n => n.label == s)
    rwa [hself] at this
  have hperm : List.Perm ((sortNodes l).filter (fun n => n.label == s))
      (l.filter (fun n => n.label == s)) :=
    (sortNodes_perm l).filter _
  exact (hsub2.eq_of_length hperm.length_eq.symm).symm

namespace DataDisambiguation

/-- The value of `new_nodes` after the group loop. -/
def newNodes (llm : LLMFun) (nodesConv : NodesConv) (data : Fragment) : List Node :=
  ((nodeGroups data).map (groupNodesOut llm nodesConv)).flatten

/-- The chat requests issued by the group loop, in order; they depend only on
the input fragment, not on the LLM's responses. -/
def mergeTrace (data : Fragment) : List Request :=
  ((nodeGroups data).map groupTraceOut).flatten

/-- The message list of the relationship-validation request (lines 127-130). -/
def validationMessage (llm : LLMFun) (nodesConv : NodesConv) (data : Fragment) :
    List ChatMessage :=
  [ChatMessage.mk MessageRole.system generate_system_message_for_relationships,
   ChatMessage.mk MessageRole.user (generate_prompt (relationshipData data ++
     "Valid Nodes:\n" ++
     String.intercalate "\n" ((newNodes llm nodesConv data).map Node.name)))]

theorem mergeStep_eq (llm : LLMFun) (nodesConv : NodesConv)
    (acc : List Node × List Request) (g : List Node) :
    mergeStep llm nodesConv acc g =
      (acc.1 ++ groupNodesOut llm nodesConv g, acc.2 ++ groupTraceOut g) := by
  unfold mergeStep groupNodesOut groupTraceOut mergeMessage disString
  split <;> simp

theorem foldl_mergeStep (llm : LLMFun) (nodesConv : NodesConv) :
    ∀ (gs : List (List Node)) (acc : List Node × List Request),
    gs.foldl (mergeStep llm nodesConv) acc =
      (acc.1 ++ (gs.map (groupNodesOut llm nodesConv)).flatten,
       acc.2 ++ (gs.map groupTraceOut).flatten) := by
  intro gs
  induction gs with
  | nil => intro acc; simp
  | cons g gs ih =>
    intro acc
    rw [List.foldl_cons, mergeStep_eq, ih]
    simp [List.append_assoc]

/-- Closed form of `run`: the output fragment and the chronological request
trace, expressed through the per-group contributions. -/
theorem run_eq (llm : LLMFun) (nodesConv : NodesConv) (relsConv : RelsConv)
    (data : Fragment) :
    run llm nodesConv relsConv data =
      (Fragment.mk (newNodes llm nodesConv data)
         (relsConv (findallBrackets (llm (validationMessage llm nodesConv data)).data)),
       mergeTrace data ++
         [(ReqKind.validation, validationMessage llm nodesConv data)]) := by
  unfold run
  simp only [foldl_mergeStep]
  unfold validationMessage newNodes mergeTrace relationshipData nodeGroups
  simp

end DataDisambiguation

theorem mergeTrace_kinds (data : Fragment) :
    ∀ r ∈ DataDisambiguation.mergeTrace data, r.1 = ReqKind.merge := by
  intro r hr
  obtain ⟨t, ht, hrt⟩ := List.mem_flatten.mp hr
  obtain ⟨g, hg, rfl⟩ := List.mem_map.mp ht
  unfold groupTraceOut at hrt
  split at hrt
  · cases hrt
  · rcases List.mem_singleton.mp hrt with rfl
    rfl

theorem mergeTrace_filter_validation (data : Fragment) :
    (DataDisambiguation.mergeTrace data).filter
      (fun r => r.1 == ReqKind.validation) = [] := by
  apply List.filter_eq_nil_iff.mpr
  intro r hr
  rw [mergeTrace_kinds data r hr]
  simp

theorem traceOut_flatten_length : ∀ gs : List (List Node), (∀ g ∈ gs, g ≠ []) →
    ((gs.map groupTraceOut).flatten).length =
      (gs.filter (fun g => 1 < g.length)).length := by
  intro gs
  induction gs with
  | nil => intro _; rfl
  | cons g gs ih =>
    intro hne
    rw [List.map_cons, List.flatten_cons, List.length_append,
      ih (fun g' hg' => hne g' (List.mem_cons_of_mem _ hg'))]
    have hglen : g.length ≠ 0 := by
      have := hne g (List.mem_cons_self _ _)
      simpa [List.length_eq_zero] using this
    unfold groupTraceOut
    by_cases h1 : g.length = 1
    · rw [if_pos (by simpa using h1), List.filter_cons_of_neg (by simp [h1])]
      simp
    · rw [if_neg (by simpa using h1),
        List.filter_cons_of_pos (by simp; omega)]
      simp [Nat.add_comm]

theorem mergeTrace_length (data : Fragment) :
    (DataDisambiguation.mergeTrace data).length =
      ((nodeGroups data).filter (fun g => 1 < g.length)).length := by
  unfold DataDisambiguation.mergeTrace
  exact traceOut_flatten_length (nodeGroups data)
    (groupByKey_ne_nil Node.label (sortNodes data.nodes))

theorem foldl_append_eq_strConcat (g : α → String) :
    ∀ (l : List α) (init : String),
      l.foldl (fun s x => s ++ g x) init = init ++ strConcat (l.map g) := by
  intro l
  induction l with
  | nil => intro init; simp [strConcat]
  | cons x xs ih =>
    intro init
    rw [List.foldl_cons, ih, List.map_cons, strConcat, ← String.append_assoc]

theorem flatten_groupNodesOut_of_empty (llm : LLMFun) (nodesConv : NodesConv)
    (hn : nodesConv [] = [])
    (hfind : ∀ m, findallBrackets (llm m).data = []) :
    ∀ gs : List (List Node),
      (gs.map (groupNodesOut llm nodesConv)).flatten =
        (gs.filter (fun g => g.length == 1)).flatten := by
  intro gs
  induction gs with
  | nil => rfl
  | cons g gs ih =>
    rw [List.map_cons, List.flatten_cons, ih]
    by_cases h1 : g.length = 1
    · rw [List.filter_cons_of_pos (by simpa using h1), List.flatten_cons]
      unfold groupNodesOut
      rw [if_pos (by simpa using h1)]
    · rw [List.filter_cons_of_neg (by simpa using h1)]
      unfold groupNodesOut
      rw [if_neg (by simpa using h1), hfind, hn, List.nil_append]

/-- Sample node used in concrete instances: a first "Person" entry. -/
def nodeAlice : Node := Node.mk "alice" "Person" "\x7b\x7d"

/-- Sample node used in concrete instances: a second "Person" entry with the
same label as `nodeAlice`. -/
def nodeAlice2 : Node := Node.mk "alice2" "Person" "\x7b\x7d"

/-- Sample node list with a duplicated label, already in label order. -/
def samplePair : List Node := [nodeAlice, nodeAlice2]

theorem sortNodes_samplePair : sortNodes samplePair = samplePair := by
  unfold sortNodes
  apply List.mergeSort_of_sorted
  unfold samplePair
  exact List.Pairwise.cons
    (fun b hb => by
      rcases List.mem_singleton.mp hb with rfl
      exact decide_eq_true (le_refl "Person"))
    (List.pairwise_singleton _ _)

/-- C1.  The claim states that every node-merge request carries the
node-merging instruction `generate_system_message_for_nodes` as its system
message.  The code instead passes `generate_system_message_for_relationships`
at line 100 (the function `generate_system_message_for_nodes` is defined but
never called): on a fragment with two same-label nodes, the single merge
request's system message is the relationship instruction, which differs from
the node instruction. -/
theorem run_merge_system_message_is_relationship_message :
    ((DataDisambiguation.run (fun _ => "") (fun _ => []) (fun _ => [])
        (Fragment.mk samplePair [])).2.head?.map
        (fun r => r.2.head?.map ChatMessage.content)) =
      some (some generate_system_message_for_relationships) ∧
    generate_system_message_for_relationships ≠ generate_system_message_for_nodes := by
  constructor
  · rw [DataDisambiguation.run_eq]
    unfold DataDisambiguation.mergeTrace nodeGroups
    dsimp only
    rw [sortNodes_samplePair]
    rfl
  · decide

/-- C2.  On a fragment whose nodes have pairwise distinct labels, `run`
issues zero node-merging requests, and the output node list is exactly the
input node list stably sorted by label. -/
theorem run_distinct_labels_no_merge_calls (llm : LLMFun) (nodesConv : NodesConv)
    (relsConv : RelsConv) (data : Fragment)
    (h : (data.nodes.map Node.label).Nodup) :
    ((DataDisambiguation.run llm nodesConv relsConv data).2.filter
        (fun r => r.1 == ReqKind.merge)).length = 0 ∧
      (DataDisambiguation.run llm nodesConv relsConv data).1.nodes =
        sortNodes data.nodes := by
  have hsortnd : ((sortNodes data.nodes).map Node.label).Nodup :=
    (((sortNodes_perm data.nodes).map Node.label).nodup_iff).mpr h
  have hgroups : nodeGroups data = (sortNodes data.nodes).map (fun a => [a]) := by
    unfold nodeGroups
    exact groupByKey_of_nodup_keys Node.label _ hsortnd
  have htrace : DataDisambiguation.mergeTrace data = [] := by
    unfold DataDisambiguation.mergeTrace
    rw [hgroups, List.map_map]
    apply List.flatten_eq_nil_iff.mpr
    intro x hx
    obtain ⟨a, _, rfl⟩ := List.mem_map.mp hx
    simp [groupTraceOut]
  constructor
  · rw [DataDisambiguation.run_eq]
    dsimp only
    rw [List.filter_append, htrace]
    simp
  · rw [DataDisambiguation.run_eq]
    dsimp only
    unfold DataDisambiguation.newNodes
    rw [hgroups, List.map_map]
    have hmap : (groupNodesOut llm nodesConv ∘ fun a => [a]) = (fun a : Node => [a]) := by
      funext a
      simp [groupNodesOut]
    rw [hmap, flatten_map_singleton]

/-- C2 witness: a concrete fragment with two distinct labels. -/
theorem run_distinct_labels_no_merge_calls_witness :
    ((DataDisambiguation.run (fun _ => "") (fun _ => []) (fun _ => [])
        (Fragment.mk [Node.mk "bob" "Person" "\x7b\x7d",
          Node.mk "site" "Webpage" "\x7b\x7d"] [])).2.filter
        (fun r => r.1 == ReqKind.merge)).length = 0 ∧
      (DataDisambiguation.run (fun _ => "") (fun _ => []) (fun _ => [])
        (Fragment.mk [Node.mk "bob" "Person" "\x7b\x7d",
          Node.mk "site" "Webpage" "\x7b\x7d"] [])).1.nodes =
        sortNodes [Node.mk "bob" "Person" "\x7b\x7d",
          Node.mk "site" "Webpage" "\x7b\x7d"] :=
  run_distinct_labels_no_merge_calls (fun _ => "") (fun _ => []) (fun _ => [])
    (Fragment.mk [Node.mk "bob" "Person" "\x7b\x7d",
      Node.mk "site" "Webpage" "\x7b\x7d"] []) (by decide)

/-- C3.  Every `run` call issues the relationship-validation request exactly
once, regardless of the input fragment (in particular also when the
relationship list is empty). -/
theorem run_validation_request_exactly_once (llm : LLMFun) (nodesConv : NodesConv)
    (relsConv : RelsConv) (data : Fragment) :
    ((DataDisambiguation.run llm nodesConv relsConv data).2.filter
      (fun r => r.1 == ReqKind.validation)).length = 1 := by
  rw [DataDisambiguation.run_eq]
  dsimp only
  rw [List.filter_append, mergeTrace_filter_validation]
  simp

/-- C4.  The total number of chat requests issued by `run` is the number of
label groups with more than one node plus one (the relationship-validation
request); the request trace is the model's only effect channel. -/
theorem run_total_request_count (llm : LLMFun) (nodesConv : NodesConv)
    (relsConv : RelsConv) (data : Fragment) :
    (DataDisambiguation.run llm nodesConv relsConv data).2.length =
      ((groupByKey Node.label (sortNodes data.nodes)).filter
        (fun g => 1 < g.length)).length + 1 := by
  rw [DataDisambiguation.run_eq]
  dsimp only
  rw [List.length_append, mergeTrace_length]
  rfl

/-- C5 counterexample.  The claim says the relationship-validation user
message consists of the `"Relationships:"` header followed by the bracketed
relationship lines and the `"Valid Nodes:"` block.  On the empty fragment the
actual user message is the `generate_prompt` wrapping of that text (it starts
with `" Here is the data:"` and ends with an extra newline), so it differs
from the claimed composition. -/
theorem validation_user_message_counterexample :
    ((DataDisambiguation.run (fun _ => "") (fun _ => []) (fun _ => [])
        (Fragment.mk [] [])).2.map
        (fun r => (r.2.map ChatMessage.content).getLast?)).getLast? =
      some (some " Here is the data:\nRelationships:\nValid Nodes:\n\n") ∧
    " Here is the data:\nRelationships:\nValid Nodes:\n\n" ≠
      claimedValidationUserContent (Fragment.mk [] []) [] := by
  constructor
  · rw [DataDisambiguation.run_eq]
    unfold DataDisambiguation.mergeTrace DataDisambiguation.validationMessage
      DataDisambiguation.newNodes relationshipData nodeGroups sortNodes
    dsimp only
    rw [List.mergeSort_nil]
    decide
  · decide

/-- C5 amended.  The relationship-validation user message is
`generate_prompt` applied to the claimed composition: the string
`" Here is the data:"` plus newline, then the `"Relationships:"` header with
one bracketed line per input relationship, then the `"Valid Nodes:"` header
with the names of exactly the nodes produced by the merging phase joined by
newlines, then a trailing newline. -/
theorem validation_user_message_amended (llm : LLMFun) (nodesConv : NodesConv)
    (relsConv : RelsConv) (data : Fragment) :
    ((DataDisambiguation.run llm nodesConv relsConv data).2.map
        (fun r => (r.1, r.2.map ChatMessage.content))).getLast? =
      some (ReqKind.validation,
        [generate_system_message_for_relationships,
         generate_prompt (claimedValidationUserContent data
           ((DataDisambiguation.run llm nodesConv relsConv data).1.nodes.map
             Node.name))]) := by
  rw [DataDisambiguation.run_eq]
  dsimp only
  rw [List.map_append, List.map_cons, List.map_nil, List.getLast?_concat]
  unfold DataDisambiguation.validationMessage relationshipData
    claimedValidationUserContent
  rw [foldl_append_eq_strConcat]
  rfl

/-- C6.  When every LLM response contains no substring matching the bracket
pattern, the bracket scan yields zero matches, so the relationship output is
empty and the node output collects only the untouched singleton groups; `run`
still completes and issues exactly its baseline number of requests (no retry
and no error path exist in the model, which is total). -/
theorem run_no_bracket_match_empty_outputs (llm : LLMFun) (nodesConv : NodesConv)
    (relsConv : RelsConv) (data : Fragment)
    (hresp : ∀ m, ¬ ContainsBracketMatch (llm m).data)
    (hn : nodesConv [] = []) (hr : relsConv [] = []) :
    (DataDisambiguation.run llm nodesConv relsConv data).1.relationships = [] ∧
    (DataDisambiguation.run llm nodesConv relsConv data).1.nodes =
      ((nodeGroups data).filter (fun g => g.length == 1)).flatten ∧
    (DataDisambiguation.run llm nodesConv relsConv data).2.length =
      ((nodeGroups data).filter (fun g => 1 < g.length)).length + 1 := by
  have hfind : ∀ m, findallBrackets (llm m).data = [] :=
    fun m => (findallBrackets_eq_nil_iff _).mpr (hresp m)
  refine ⟨?_, ?_, ?_⟩
  · rw [DataDisambiguation.run_eq]
    dsimp only
    rw [hfind, hr]
  · rw [DataDisambiguation.run_eq]
    dsimp only
    unfold DataDisambiguation.newNodes
    exact flatten_groupNodesOut_of_empty llm nodesConv hn hfind (nodeGroups data)
  · rw [DataDisambiguation.run_eq]
    dsimp only
    rw [List.length_append, mergeTrace_length]
    rfl

/-- C6 witness: a concrete fragment with one duplicated-label group and one
relationship, against an LLM that always answers bracket-free text. -/
theorem run_no_bracket_match_empty_outputs_witness :
    (DataDisambiguation.run (fun _ => "no brackets in sight") (fun _ => [])
        (fun _ => [])
        (Fragment.mk samplePair
          [Relationship.mk "alice" "knows" "alice2" "\x7b\x7d"])).1.relationships = [] ∧
    (DataDisambiguation.run (fun _ => "no brackets in sight") (fun _ => [])
        (fun _ => [])
        (Fragment.mk samplePair
          [Relationship.mk "alice" "knows" "alice2" "\x7b\x7d"])).1.nodes =
      ((nodeGroups (Fragment.mk samplePair
          [Relationship.mk "alice" "knows" "alice2" "\x7b\x7d"])).filter
        (fun g => g.length == 1)).flatten ∧
    (DataDisambiguation.run (fun _ => "no brackets in sight") (fun _ => [])
        (fun _ => [])
        (Fragment.mk samplePair
          [Relationship.mk "alice" "knows" "alice2" "\x7b\x7d"])).2.length =
      ((nodeGroups (Fragment.mk samplePair
          [Relationship.mk "alice" "knows" "alice2" "\x7b\x7d"])).filter
        (fun g => 1 < g.length)).length + 1 :=
  run_no_bracket_match_empty_outputs (fun _ => "no brackets in sight")
    (fun _ => []) (fun _ => [])
    (Fragment.mk samplePair [Relationship.mk "alice" "knows" "alice2" "\x7b\x7d"])
    (fun _ => (findallBrackets_eq_nil_iff _).mp rfl) rfl rfl

/-- C7.  `run` stably sorts the nodes by label and partitions the sorted
sequence into contiguous runs of equal label: the groups concatenate back to
the sorted sequence, labels never repeat across distinct groups, and every
group equals the input list filtered to one label, so same-label input nodes
share a group and keep their relative input order. -/
theorem run_sort_and_group_structure (l : List Node) :
    List.Perm (sortNodes l) l ∧
    (sortNodes l).Pairwise (fun a b : Node => a.label ≤ b.label) ∧
    (groupByKey Node.label (sortNodes l)).flatten = sortNodes l ∧
    (groupByKey Node.label (sortNodes l)).Pairwise
      (fun g h => ∀ x ∈ g, ∀ y ∈ h, x.label ≠ y.label) ∧
    ∀ g ∈ groupByKey Node.label (sortNodes l),
      g ≠ [] ∧ ∃ s, g = l.filter (fun n => n.label == s) := by
  refine ⟨sortNodes_perm l, sortNodes_pairwise l, groupByKey_flatten _ _,
    groupByKey_sorted_pairwise_ne Node.label _ (sortNodes_pairwise l), ?_⟩
  intro g hg
  refine ⟨groupByKey_ne_nil _ _ g hg, ?_⟩
  obtain ⟨a, -, hgeq⟩ :=
    groupByKey_sorted_eq_filter Node.label _ (sortNodes_pairwise l) g hg
  exact ⟨a.label, by rw [hgeq, sortNodes_filter_label]⟩

/-- C7 witness: the duplicated-label pair forms a single group equal to a
label filter of the input. -/
theorem run_sort_and_group_structure_witness :
    samplePair ≠ [] ∧ ∃ s, samplePair = samplePair.filter (fun n => n.label == s) :=
  (run_sort_and_group_structure samplePair).2.2.2.2 samplePair
    (by rw [sortNodes_samplePair]; decide)

/-- C8.  Every chat request `run` issues, whether node-merging or
relationship-validation, carries the same system message, namely
`generate_system_message_for_relationships`, followed by a single user
message. -/
theorem run_all_requests_share_system_message (llm : LLMFun)
    (nodesConv : NodesConv) (relsConv : RelsConv) (data : Fragment) :
    ∀ r ∈ (DataDisambiguation.run llm nodesConv relsConv data).2,
      ∃ u, r.2 =
        [ChatMessage.mk MessageRole.system generate_system_message_for_relationships,
         ChatMessage.mk MessageRole.user u] := by
  intro r hr
  rw [DataDisambiguation.run_eq] at hr
  dsimp only at hr
  rcases List.mem_append.mp hr with hr | hr
  · obtain ⟨t, ht, hrt⟩ := List.mem_flatten.mp hr
    obtain ⟨g, -, rfl⟩ := List.mem_map.mp ht
    unfold groupTraceOut at hrt
    split at hrt
    · cases hrt
    · rcases List.mem_singleton.mp hrt with rfl
      exact ⟨disString g, rfl⟩
  · rcases List.mem_singleton.mp hr with rfl
    exact ⟨_, rfl⟩

/-- C8 witness: the relationship-validation request of a concrete call. -/
theorem run_all_requests_share_system_message_witness :
    ∃ u, ((ReqKind.validation,
        DataDisambiguation.validationMessage (fun _ => "") (fun _ => [])
          (Fragment.mk [] [])) : Request).2 =
      [ChatMessage.mk MessageRole.system generate_system_message_for_relationships,
       ChatMessage.mk MessageRole.user u] :=
  run_all_requests_share_system_message (fun _ => "") (fun _ => []) (fun _ => [])
    (Fragment.mk [] []) _
    (by rw [DataDisambiguation.run_eq]
        exact List.mem_append_right _ (List.mem_singleton_self _))

/-- C9.  `run` is a deterministic function of the input fragment and the
external capability: two calls on equal fragments with extensionally equal
LLM functions issue identical request traces and return identical outputs. -/
theorem run_deterministic (llm1 llm2 : LLMFun) (nodesConv : NodesConv)
    (relsConv : RelsConv) (d1 d2 : Fragment)
    (hllm : ∀ m, llm1 m = llm2 m) (hd : d1 = d2) :
    DataDisambiguation.run llm1 nodesConv relsConv d1 =
      DataDisambiguation.run llm2 nodesConv relsConv d2 := by
  cases funext hllm
  cases hd
  rfl

/-- C9 witness: a concrete pair of equal calls. -/
theorem run_deterministic_witness :
    DataDisambiguation.run (fun _ => "echo") (fun _ => []) (fun _ => [])
        (Fragment.mk samplePair []) =
      DataDisambiguation.run (fun _ => "echo") (fun _ => []) (fun _ => [])
        (Fragment.mk samplePair []) :=
  run_deterministic (fun _ => "echo") (fun _ => "echo") (fun _ => [])
    (fun _ => []) (Fragment.mk samplePair []) (Fragment.mk samplePair [])
    (fun _ => rfl) rfl
